import Mathlib

/-!
Shallow embedding of `soleurhelper.py` (the SOLEUR price helper).

Python floats are modelled as exact rationals (`ℚ`); price series are
`List ℚ`, oldest-first, matching the Python lists.  Functions that can
return Python `None` return `Option ℚ`; `get_action`, which raises a
`TypeError` when its `ma20` argument is `None` (the comparison
`price > ma20` is the first expression evaluated), returns
`Except Unit (String × String)` where `Except.error ()` models the raise.
-/

set_option maxRecDepth 4000

/-- ANSI color constant `GREEN` from the source. -/
def GREEN : String := "\x1B[92m"

/-- ANSI color constant `RED` from the source. -/
def RED : String := "\x1B[91m"

/-- ANSI color constant `YELLOW` from the source. -/
def YELLOW : String := "\x1B[93m"

/-- The string `get_action` returns for a buy signal. -/
def buyLabel : String := "BUY ✅"

/-- The string `get_action` returns for a sell signal. -/
def sellLabel : String := "SELL ❌"

/-- The string `get_action` returns for a hold signal. -/
def holdLabel : String := "HOLD ⚖️"

/-- Embedding of `moving_average(prices, period)`:
`None` if `len(prices) < period`, else `sum(prices[-period:]) / period`.
For `period ≥ 1`, `prices[-period:]` is the list of the last `period`
elements, i.e. `prices.drop (prices.length - period)`. -/
def moving_average (prices : List ℚ) (period : ℕ) : Option ℚ :=
  if prices.length < period then none
  else some ((prices.drop (prices.length - period)).sum / (period : ℚ))

/-- The `period` consecutive deltas `prices[i] - prices[i-1]` for
`i in range(-period, 0)` used by `calculate_rsi`.  Python's negative
index `i = -period + j` addresses `prices[n - period + j]` where
`n = len(prices)`. -/
def rsiDeltas (prices : List ℚ) (period : ℕ) : List ℚ :=
  (List.range period).map (fun j =>
    prices.getD (prices.length - period + j) 0 -
      prices.getD (prices.length - period + j - 1) 0)

/-- The `gains, losses` accumulation step of `calculate_rsi`'s loop:
a positive change is added to `gains`, otherwise `losses -= change`. -/
def rsiStep (p : ℚ × ℚ) (change : ℚ) : ℚ × ℚ :=
  if 0 < change then (p.1 + change, p.2) else (p.1, p.2 - change)

/-- Embedding of `calculate_rsi(prices, period)`: `None` when
`len(prices) < period + 1`; otherwise accumulate gains and losses over
the last `period` deltas, average them, return `100.0` when the average
loss is zero and `100 - 100/(1 + avg_gain/avg_loss)` otherwise. -/
def calculate_rsi (prices : List ℚ) (period : ℕ) : Option ℚ :=
  if prices.length < period + 1 then none
  else
    let gl := (rsiDeltas prices period).foldl rsiStep ((0 : ℚ), (0 : ℚ))
    let avg_gain := gl.1 / (period : ℚ)
    let avg_loss := gl.2 / (period : ℚ)
    if avg_loss = 0 then some 100
    else some (100 - 100 / (1 + avg_gain / avg_loss))

/-- One step of the inner `ema` loop of `calculate_macd`: given the
previous output `prev`, each remaining value `v` contributes
`v * k + prev * (1 - k)`. -/
def emaFrom (k : ℚ) (prev : ℚ) : List ℚ → List ℚ
  | [] => []
  | v :: rest =>
    let cur := v * k + prev * (1 - k)
    cur :: emaFrom k cur rest

/-- Embedding of the internal `ema(series, period)` helper of
`calculate_macd`: the first output is the first input (seed), each
subsequent output is `v * k + out[-1] * (1 - k)` with
`k = 2 / (period + 1)`. -/
def ema (series : List ℚ) (period : ℕ) : List ℚ :=
  let k := 2 / ((period : ℚ) + 1)
  match series with
  | [] => []
  | v :: rest => v :: emaFrom k v rest

/-- Embedding of `calculate_macd(prices, fast, slow, signal)`: returns
`(None, None)` when `len(prices) < slow + signal`; otherwise subtracts
the slow EMA from the (aligned) fast EMA elementwise and smooths the
result with a `signal`-period EMA, returning the last element of each
series.  `ema_fast[-len(ema_slow):]` is modelled as
`drop (length - length)`, and `[-1]` as `getLast?`. -/
def calculate_macd (prices : List ℚ) (fast slow signal : ℕ) :
    Option ℚ × Option ℚ :=
  if prices.length < slow + signal then (none, none)
  else
    let ema_fast := ema prices fast
    let ema_slow := ema prices slow
    let aligned := ema_fast.drop (ema_fast.length - ema_slow.length)
    let macd_line_series := List.zipWith (fun f s => f - s) aligned ema_slow
    let signal_line_series := ema macd_line_series signal
    (macd_line_series.getLast?, signal_line_series.getLast?)

/-- `x is not None and x < c` for an optional float `x`. -/
def optLt (x : Option ℚ) (c : ℚ) : Bool :=
  match x with
  | none => false
  | some v => decide (v < c)

/-- `x is not None and x > c` for an optional float `x`. -/
def optGt (x : Option ℚ) (c : ℚ) : Bool :=
  match x with
  | none => false
  | some v => decide (c < v)

/-- `m is not None and s is not None and m > s` for optional floats. -/
def optPairGt (m s : Option ℚ) : Bool :=
  match m, s with
  | some a, some b => decide (b < a)
  | _, _ => false

/-- `m is not None and s is not None and m < s` for optional floats. -/
def optPairLt (m s : Option ℚ) : Bool :=
  match m, s with
  | some a, some b => decide (a < b)
  | _, _ => false

/-- The body of `get_action` once `ma20` is known to be a float `ma`:
`BUY` when `price > ma` and `rsi14 < 35` and `macd > macd_signal`
(each of the optional arguments also required present), `SELL` in the
mirrored case with threshold 65, `HOLD` otherwise. -/
def action_present (price ma : ℚ) (rsi14 macd macd_signal : Option ℚ) :
    String × String :=
  if decide (ma < price) && optLt rsi14 35 && optPairGt macd macd_signal then
    (buyLabel, GREEN)
  else if decide (price < ma) && optGt rsi14 65 && optPairLt macd macd_signal then
    (sellLabel, RED)
  else
    (holdLabel, YELLOW)

/-- Embedding of `get_action(price, ma20, rsi14, macd, macd_signal)`.
Python evaluates `price > ma20` first: when `ma20` is `None` this raises
`TypeError` (modelled as `Except.error ()`); the other three optional
arguments are guarded by `is not None` checks and never raise. -/
def get_action (price : ℚ) (ma20 rsi14 macd macd_signal : Option ℚ) :
    Except Unit (String × String) :=
  match ma20 with
  | none => Except.error ()
  | some ma => Except.ok (action_present price ma rsi14 macd macd_signal)

/-- One buffer update of the main loop:
`prices.append(price); if len(prices) > history: prices.pop(0)`. -/
def buffer_append (history : ℕ) (prices : List ℚ) (price : ℚ) : List ℚ :=
  let ps := prices ++ [price]
  if history < ps.length then ps.drop 1 else ps

/-- The rolling buffer obtained by starting from the empty list and
applying `buffer_append` for each input in turn. -/
def buffer_run (history : ℕ) (inputs : List ℚ) : List ℚ :=
  inputs.foldl (buffer_append history) []

/-- The mutable state of the `soleur_helper` loop: the price history and
the previously displayed action string. -/
structure LoopState where
  prices : List ℚ
  last_action : Option String
  deriving DecidableEq

/-- One iteration of the `soleur_helper` loop, with the outcome of
`get_spot_price` supplied as a parameter (`none` models any raised
fetch exception).  Returns the next state together with the duration
passed to `time.sleep` before the next iteration (every path sleeps
`interval`).  On a fetch error the state is returned unchanged; on
success the price is appended to the rolling buffer, the indicators are
recomputed, and when all four are present the action is evaluated and
stored as `last_action`. -/
def tick (history : ℕ) (interval : ℚ) (fetch : Option ℚ) (s : LoopState) :
    LoopState × ℚ :=
  match fetch with
  | none => (s, interval)
  | some price =>
    let prices := buffer_append history s.prices price
    let ma20 := moving_average prices 20
    let rsi14 := calculate_rsi prices 14
    let macdPair := calculate_macd prices 12 26 9
    match ma20, rsi14, macdPair.1, macdPair.2 with
    | some ma, some rsi, some m, some sg =>
      let ac := action_present price ma (some rsi) (some m) (some sg)
      ({ prices := prices, last_action := some ac.1 }, interval)
    | _, _, _, _ =>
      ({ prices := prices, last_action := s.last_action }, interval)

/-- The arithmetic mean of a list (`sum / length`). -/
def listMean (l : List ℚ) : ℚ := l.sum / (l.length : ℚ)

/-- The last `n` elements of a list (all of it when `n ≥ length`). -/
def lastN (n : ℕ) (l : List ℚ) : List ℚ := l.drop (l.length - n)

/-- The 35 prices rising linearly from 100 to 134 in integer steps. -/
def linPrices : List ℚ := (List.range 35).map (fun i => 100 + (i : ℚ))

/-! ### Helper lemmas -/

lemma buffer_foldl_eq (h : ℕ) :
    ∀ (inputs acc : List ℚ), acc.length ≤ h →
      inputs.foldl (buffer_append h) acc =
        (acc ++ inputs).drop ((acc ++ inputs).length - h) := by
  intro inputs
  induction inputs with
  | nil =>
    intro acc hacc
    simp [Nat.sub_eq_zero_of_le hacc]
  | cons x xs ih =>
    intro acc hacc
    rw [List.foldl_cons]
    by_cases hfull : h < (acc ++ [x]).length
    · have hstep : buffer_append h acc x = (acc ++ [x]).drop 1 := by
        simp only [buffer_append]
        rw [if_pos hfull]
      have hacc' : ((acc ++ [x]).drop 1).length ≤ h := by
        simp only [List.length_drop, List.length_append, List.length_singleton]
        omega
      rw [hstep, ih _ hacc']
      have h1 : ((acc ++ [x]).drop 1) ++ xs = ((acc ++ [x]) ++ xs).drop 1 :=
        (List.drop_append_of_le_length (by simp)).symm
      have h2 : acc ++ x :: xs = (acc ++ [x]) ++ xs := by simp
      rw [h1, List.drop_drop, h2]
      congr 1
      simp only [List.length_drop, List.length_append, List.length_singleton,
        List.length_cons] at hfull ⊢
      omega
    · have hstep : buffer_append h acc x = acc ++ [x] := by
        simp only [buffer_append]
        rw [if_neg hfull]
      have hle : (acc ++ [x]).length ≤ h := by omega
      have h2 : (acc ++ [x]) ++ xs = acc ++ x :: xs := by simp
      rw [hstep, ih _ hle, h2]

lemma buffer_run_eq (h : ℕ) (inputs : List ℚ) :
    buffer_run h inputs = inputs.drop (inputs.length - h) := by
  have := buffer_foldl_eq h inputs [] (by simp)
  simpa [buffer_run] using this

/-! ### C7: moving average -/

/-- C7: `moving_average(prices, period)` is absent exactly when
`len(prices) < period`, otherwise it equals the arithmetic mean of the
last `period` elements; in particular when `len(prices) == period` it is
the mean of all the elements. -/
theorem moving_average_spec (prices : List ℚ) (period : ℕ) (hp : 0 < period) :
    (moving_average prices period = none ↔ prices.length < period) ∧
    (period ≤ prices.length →
      moving_average prices period = some (listMean (lastN period prices))) ∧
    (prices.length = period →
      moving_average prices period = some (listMean prices)) := by
  refine ⟨?_, ?_, ?_⟩
  · unfold moving_average
    split
    next h => simp [h]
    next h => simp [h]
  · intro hle
    have hnot : ¬ prices.length < period := by omega
    have hlen2 : (prices.drop (prices.length - period)).length = period := by
      rw [List.length_drop]; omega
    simp only [moving_average, if_neg hnot, listMean, lastN, hlen2]
  · intro heq
    have hnot : ¬ prices.length < period := by omega
    have hdrop : prices.length - period = 0 := by omega
    simp only [moving_average, if_neg hnot, listMean, lastN, hdrop,
      List.drop_zero]
    rw [heq]

/-- Witness for C7: a concrete pair of inputs exercising both the
present case (mean of the last two elements) and the absent case. -/
theorem moving_average_spec_witness :
    moving_average [(1 : ℚ), 2, 3] 2 = some (listMean (lastN 2 [(1 : ℚ), 2, 3])) ∧
    moving_average [(1 : ℚ)] 2 = none :=
  ⟨(moving_average_spec [(1 : ℚ), 2, 3] 2 (by decide)).2.1 (by decide),
    ((moving_average_spec [(1 : ℚ)] 2 (by decide)).1).mpr (by decide)⟩

/-! ### C8: rolling buffer -/

/-- C8: the rolling price buffer, started empty and updated only by the
append-then-evict step, never exceeds its capacity, and feeding
`capacity + 1` values leaves exactly the most recent `capacity` values
in oldest-first order (the first value appended is evicted). -/
theorem buffer_run_spec (history : ℕ) (inputs : List ℚ) :
    (buffer_run history inputs).length ≤ history ∧
    (inputs.length = history + 1 → buffer_run history inputs = inputs.drop 1) := by
  constructor
  · rw [buffer_run_eq]
    simp only [List.length_drop]
    omega
  · intro hlen
    rw [buffer_run_eq, hlen]
    congr 1
    omega

/-- Witness for C8: capacity 2, three appended values; the buffer holds
the last two values in order. -/
theorem buffer_run_spec_witness :
    (buffer_run 2 [(10 : ℚ), 20, 30]).length ≤ 2 ∧
    buffer_run 2 [(10 : ℚ), 20, 30] = [(20 : ℚ), 30] :=
  ⟨(buffer_run_spec 2 [(10 : ℚ), 20, 30]).1,
    ((buffer_run_spec 2 [(10 : ℚ), 20, 30]).2 (by decide)).trans (by decide)⟩

/-! ### C9: fetch failure is harmless -/

/-- C9: a tick whose price fetch fails leaves the loop state (price
buffer and previous action) unchanged and sleeps the standard interval
before retrying; iterating any number of consecutive failed ticks still
leaves the state unchanged (no retry limit, never fatal). -/
theorem tick_fetch_error_spec (history : ℕ) (interval : ℚ) (s : LoopState) :
    tick history interval none s = (s, interval) ∧
    ∀ n : ℕ, (fun st => (tick history interval none st).1)^[n] s = s := by
  refine ⟨rfl, ?_⟩
  intro n
  induction n with
  | zero => rfl
  | succ n ih =>
    rw [Function.iterate_succ_apply', ih]
    rfl

/-! ### C2: absent indicators in `get_action` -/

/-- C2 counterexample: with `ma20` absent (and the other indicators
present), `get_action` does not return HOLD — the comparison
`price > ma20` raises a `TypeError` (modelled as `Except.error ()`),
refuting the claim that any absent indicator yields HOLD without
failing. -/
theorem get_action_ma_absent_counterexample :
    get_action 110 none (some 30) (some 1) (some (1 / 2)) = Except.error () ∧
    get_action 110 none (some 30) (some 1) (some (1 / 2)) ≠
      Except.ok (holdLabel, YELLOW) := by
  refine ⟨rfl, ?_⟩
  intro hcontra
  exact Except.noConfusion hcontra

/-- C2 (amended): when `ma20` is present and at least one of `rsi14`,
`macd`, `macd_signal` is absent, `get_action` returns HOLD regardless of
the other values and does not fail; when `ma20` is absent it fails with
a `TypeError` instead. -/
theorem get_action_absent_spec (price ma : ℚ) (rsi macd sig : Option ℚ)
    (habs : rsi = none ∨ macd = none ∨ sig = none) :
    get_action price (some ma) rsi macd sig = Except.ok (holdLabel, YELLOW) ∧
    get_action price none rsi macd sig = Except.error () := by
  refine ⟨?_, rfl⟩
  simp only [get_action, Except.ok.injEq]
  rcases habs with h | h | h
  · subst h
    simp [action_present, optLt, optGt]
  · subst h
    simp [action_present, optPairGt, optPairLt]
  · subst h
    cases macd <;> simp [action_present, optPairGt, optPairLt]

/-- Witness for C2's amended theorem: `rsi14` absent with everything
else present (and a buy-favourable price) still yields HOLD, while the
same call with `ma20` absent errors. -/
theorem get_action_absent_spec_witness :
    get_action 110 (some 100) none (some 1) (some (1 / 2)) =
      Except.ok (holdLabel, YELLOW) ∧
    get_action 110 none none (some 1) (some (1 / 2)) = Except.error () :=
  get_action_absent_spec 110 100 none (some 1) (some (1 / 2)) (Or.inl rfl)

/-! ### C4: decision rule with all indicators present -/

lemma action_present_eq (price ma rsi m sg : ℚ) :
    action_present price ma (some rsi) (some m) (some sg) =
      if ma < price ∧ rsi < 35 ∧ sg < m then (buyLabel, GREEN)
      else if price < ma ∧ 65 < rsi ∧ m < sg then (sellLabel, RED)
      else (holdLabel, YELLOW) := by
  simp [action_present, optLt, optGt, optPairGt, optPairLt, Bool.and_eq_true,
    decide_eq_true_eq, and_assoc]

/-- C4: with all four indicators present, `get_action` returns BUY iff
`price > ma ∧ rsi < 35 ∧ macd > macd_signal`, SELL iff
`price < ma ∧ rsi > 65 ∧ macd < macd_signal`, and HOLD in every other
case; in particular `(110, 100, 30, 1, 0.5)` gives BUY and
`(90, 100, 70, -1, -0.5)` gives SELL. -/
theorem get_action_present_spec (price ma rsi m sg : ℚ) :
    (get_action price (some ma) (some rsi) (some m) (some sg) =
        Except.ok (buyLabel, GREEN) ↔ ma < price ∧ rsi < 35 ∧ sg < m) ∧
    (get_action price (some ma) (some rsi) (some m) (some sg) =
        Except.ok (sellLabel, RED) ↔ price < ma ∧ 65 < rsi ∧ m < sg) ∧
    (get_action price (some ma) (some rsi) (some m) (some sg) =
        Except.ok (holdLabel, YELLOW) ↔
      ¬(ma < price ∧ rsi < 35 ∧ sg < m) ∧ ¬(price < ma ∧ 65 < rsi ∧ m < sg)) ∧
    get_action 110 (some 100) (some 30) (some 1) (some (1 / 2)) =
      Except.ok (buyLabel, GREEN) ∧
    get_action 90 (some 100) (some 70) (some (-1)) (some (-(1 / 2))) =
      Except.ok (sellLabel, RED) := by
  have hbs : sellLabel = buyLabel ↔ False := by
    simp only [iff_false]
    decide
  have hhb : holdLabel = buyLabel ↔ False := by
    simp only [iff_false]
    decide
  have hsb : buyLabel = sellLabel ↔ False := by
    simp only [iff_false]
    decide
  have hhs : holdLabel = sellLabel ↔ False := by
    simp only [iff_false]
    decide
  have hbh2 : buyLabel = holdLabel ↔ False := by
    simp only [iff_false]
    decide
  have hsh2 : sellLabel = holdLabel ↔ False := by
    simp only [iff_false]
    decide
  refine ⟨?_, ?_, ?_, ?_, ?_⟩
  · simp only [get_action, Except.ok.injEq, action_present_eq]
    split_ifs with h1 h2
    · simp [h1]
    · simp [Prod.mk.injEq, hbs, h1]
    · simp [Prod.mk.injEq, hhb, h1]
  · simp only [get_action, Except.ok.injEq, action_present_eq]
    split_ifs with h1 h2
    · have : ¬(price < ma ∧ 65 < rsi ∧ m < sg) := by
        intro hc
        exact absurd h1.1 (not_lt.mpr (le_of_lt hc.1))
      simp [Prod.mk.injEq, hsb, this]
    · simp [h2]
    · simp [Prod.mk.injEq, hhs, h2]
  · simp only [get_action, Except.ok.injEq, action_present_eq]
    split_ifs with h1 h2
    · simp [Prod.mk.injEq, hbh2, h1]
    · simp [Prod.mk.injEq, hsh2, h2]
    · simp [h1, h2]
  · simp only [get_action, action_present_eq]
    norm_num
  · simp only [get_action, action_present_eq]
    norm_num

/-! ### RSI helper lemmas -/

lemma foldl_rsiStep (l : List ℚ) (a b : ℚ) :
    l.foldl rsiStep (a, b) =
      (a + (l.map (fun c => if 0 < c then c else 0)).sum,
        b + (l.map (fun c => if 0 < c then 0 else -c)).sum) := by
  induction l generalizing a b with
  | nil => simp
  | cons c t ih =>
    simp only [List.foldl_cons, List.map_cons, List.sum_cons, rsiStep]
    by_cases h : 0 < c
    · rw [if_pos h, if_pos h, if_pos h, ih]
      simp only [Prod.mk.injEq]
      constructor <;> ring
    · rw [if_neg h, if_neg h, if_neg h, ih]
      simp only [Prod.mk.injEq]
      constructor <;> ring

lemma sum_gain_nonneg (l : List ℚ) :
    0 ≤ (l.map (fun c => if 0 < c then c else 0)).sum := by
  induction l with
  | nil => simp
  | cons c t ih =>
    simp only [List.map_cons, List.sum_cons]
    have hc : 0 ≤ (if 0 < c then c else 0) := by
      split_ifs with h
      · exact le_of_lt h
      · exact le_refl 0
    linarith

lemma sum_loss_nonneg (l : List ℚ) :
    0 ≤ (l.map (fun c => if 0 < c then 0 else -c)).sum := by
  induction l with
  | nil => simp
  | cons c t ih =>
    simp only [List.map_cons, List.sum_cons]
    have hc : 0 ≤ (if 0 < c then 0 else -c) := by
      split_ifs with h
      · exact le_refl 0
      · linarith [not_lt.mp h]
    linarith

lemma sum_loss_eq_zero_iff (l : List ℚ) :
    (l.map (fun c => if 0 < c then 0 else -c)).sum = 0 ↔ ∀ c ∈ l, 0 ≤ c := by
  induction l with
  | nil => simp
  | cons c t ih =>
    simp only [List.map_cons, List.sum_cons, List.mem_cons]
    have h1 : 0 ≤ (if 0 < c then 0 else -c) := by
      split_ifs with h
      · exact le_refl 0
      · linarith [not_lt.mp h]
    have h2 : 0 ≤ (t.map (fun c => if 0 < c then 0 else -c)).sum :=
      sum_loss_nonneg t
    constructor
    · intro hsum x hx
      have ht : (if 0 < c then 0 else -c) = 0 := by linarith
      have hr : (t.map (fun c => if 0 < c then 0 else -c)).sum = 0 := by linarith
      rcases hx with rfl | hx
      · by_cases hc : 0 < x
        · exact le_of_lt hc
        · rw [if_neg hc] at ht
          linarith
      · exact (ih.mp hr) x hx
    · intro hall
      have hc : 0 ≤ c := hall c (Or.inl rfl)
      have ht : (if 0 < c then 0 else -c) = 0 := by
        split_ifs with h0
        · rfl
        · have hc0 : c = 0 := le_antisymm (not_lt.mp h0) hc
          rw [hc0]
          ring
      rw [ht, zero_add, ih.mpr (fun x hx => hall x (Or.inr hx))]

lemma calculate_rsi_eq (prices : List ℚ) (period : ℕ) :
    calculate_rsi prices period =
      if prices.length < period + 1 then none
      else
        if ((rsiDeltas prices period).map
              (fun c => if 0 < c then 0 else -c)).sum / (period : ℚ) = 0 then
          some 100
        else
          some (100 - 100 /
            (1 + (((rsiDeltas prices period).map
                    (fun c => if 0 < c then c else 0)).sum / (period : ℚ)) /
                (((rsiDeltas prices period).map
                    (fun c => if 0 < c then 0 else -c)).sum / (period : ℚ)))) := by
  simp only [calculate_rsi, foldl_rsiStep, zero_add]


lemma rsi_val_bounds (G L p : ℚ) (hG : 0 ≤ G) (hL : 0 < L) (hp : 0 < p) :
    0 ≤ 100 - 100 / (1 + (G / p) / (L / p)) ∧
    100 - 100 / (1 + (G / p) / (L / p)) < 100 := by
  have hrs : 0 ≤ (G / p) / (L / p) :=
    div_nonneg (div_nonneg hG hp.le) (div_nonneg hL.le hp.le)
  have h1rs : (0 : ℚ) < 1 + (G / p) / (L / p) := by linarith
  have hfrac_pos : 0 < 100 / (1 + (G / p) / (L / p)) := by positivity
  have hfrac_le : 100 / (1 + (G / p) / (L / p)) ≤ 100 := by
    rw [div_le_iff₀ h1rs]
    nlinarith
  exact ⟨by linarith, by linarith⟩

/-! ### C3: RSI definedness, range and saturation -/

/-- C3: `calculate_rsi(prices, period)` is absent exactly when
`len(prices) ≤ period`; otherwise its value lies in `[0, 100]` and it
equals `100.0` exactly when every one of the `period` consecutive
deltas taken over the most recent `period + 1` prices is
non-negative (the `avg_loss == 0` saturation case). -/
theorem calculate_rsi_spec (prices : List ℚ) (period : ℕ) (hp : 0 < period) :
    (calculate_rsi prices period = none ↔ prices.length ≤ period) ∧
    (period + 1 ≤ prices.length →
      ∃ r, calculate_rsi prices period = some r ∧ 0 ≤ r ∧ r ≤ 100 ∧
        (r = 100 ↔ ∀ c ∈ rsiDeltas prices period, 0 ≤ c)) := by
  have hper : (0 : ℚ) < (period : ℚ) := by exact_mod_cast hp
  constructor
  · rw [calculate_rsi_eq]
    split
    next h =>
      constructor
      · intro _
        omega
      · intro _
        rfl
    next h =>
      constructor
      · intro hc
        split at hc <;> simp at hc
      · intro hle
        exact absurd hle (by omega)
  · intro hl
    have hnot : ¬ prices.length < period + 1 := by omega
    rw [calculate_rsi_eq, if_neg hnot]
    by_cases hL0 : ((rsiDeltas prices period).map
        (fun c => if 0 < c then 0 else -c)).sum = 0
    · have hdiv0 : ((rsiDeltas prices period).map
          (fun c => if 0 < c then 0 else -c)).sum / (period : ℚ) = 0 := by
        rw [hL0, zero_div]
      rw [if_pos hdiv0]
      refine ⟨100, rfl, by norm_num, le_refl 100, ?_⟩
      constructor
      · intro _
        exact (sum_loss_eq_zero_iff _).mp hL0
      · intro _
        rfl
    · have hLpos : 0 < ((rsiDeltas prices period).map
          (fun c => if 0 < c then 0 else -c)).sum :=
        lt_of_le_of_ne (sum_loss_nonneg _) (Ne.symm hL0)
      have hdiv0 : ¬ ((rsiDeltas prices period).map
          (fun c => if 0 < c then 0 else -c)).sum / (period : ℚ) = 0 := by
        rw [div_eq_zero_iff]
        push_neg
        exact ⟨hL0, ne_of_gt hper⟩
      rw [if_neg hdiv0]
      obtain ⟨hge, hlt⟩ :=
        rsi_val_bounds _ _ _ (sum_gain_nonneg (rsiDeltas prices period)) hLpos hper
      refine ⟨_, rfl, hge, le_of_lt hlt, ?_⟩
      constructor
      · intro h100
        exact absurd h100 (ne_of_lt hlt)
      · intro hall
        exact absurd ((sum_loss_eq_zero_iff _).mpr hall) hL0

/-- Witness for C3: a two-price rising series with `period = 1` is long
enough; its RSI is defined, bounded, and saturated at 100. -/
theorem calculate_rsi_spec_witness :
    (calculate_rsi [(1 : ℚ), 2] 1 = none ↔ ([(1 : ℚ), 2]).length ≤ 1) ∧
    (1 + 1 ≤ ([(1 : ℚ), 2]).length →
      ∃ r, calculate_rsi [(1 : ℚ), 2] 1 = some r ∧ 0 ≤ r ∧ r ≤ 100 ∧
        (r = 100 ↔ ∀ c ∈ rsiDeltas [(1 : ℚ), 2] 1, 0 ≤ c)) :=
  calculate_rsi_spec [(1 : ℚ), 2] 1 (by decide)

/-! ### C10: RSI depends only on the last `period + 1` prices -/

lemma getD_drop (l : List ℚ) (d i : ℕ) :
    (l.drop d).getD i 0 = l.getD (d + i) 0 := by
  simp [List.getD_eq_getElem?_getD, List.getElem?_drop]

lemma rsiDeltas_lastN (prices : List ℚ) (period : ℕ)
    (hl : period + 1 ≤ prices.length) :
    rsiDeltas (lastN (period + 1) prices) period = rsiDeltas prices period := by
  unfold rsiDeltas lastN
  have hlen : (prices.drop (prices.length - (period + 1))).length = period + 1 := by
    rw [List.length_drop]
    omega
  refine List.map_congr_left ?_
  intro j hj
  rw [List.mem_range] at hj
  rw [hlen, getD_drop, getD_drop]
  congr 2 <;> omega

/-- C10: `calculate_rsi` depends only on the most recent `period + 1`
prices: whenever `len(prices) ≥ period + 1`, evaluating it on the whole
list and on the sublist of the last `period + 1` elements gives the same
result. -/
theorem calculate_rsi_lastN (prices : List ℚ) (period : ℕ) (hp : 0 < period)
    (hl : period + 1 ≤ prices.length) :
    calculate_rsi prices period = calculate_rsi (lastN (period + 1) prices) period := by
  have hlen : (lastN (period + 1) prices).length = period + 1 := by
    rw [lastN, List.length_drop]
    omega
  have hn1 : ¬ prices.length < period + 1 := by omega
  have hn2 : ¬ period + 1 < period + 1 := by omega
  rw [calculate_rsi_eq, calculate_rsi_eq, rsiDeltas_lastN prices period hl, hlen,
    if_neg hn1, if_neg hn2]

/-- Witness for C10: a three-price series with `period = 1` agrees with
its two-element suffix. -/
theorem calculate_rsi_lastN_witness :
    calculate_rsi [(3 : ℚ), 1, 2] 1 = calculate_rsi (lastN 2 [(3 : ℚ), 1, 2]) 1 :=
  calculate_rsi_lastN [(3 : ℚ), 1, 2] 1 (by decide) (by decide)

/-! ### C6: the EMA helper -/

lemma emaFrom_length (k prev : ℚ) (l : List ℚ) :
    (emaFrom k prev l).length = l.length := by
  induction l generalizing prev with
  | nil => rfl
  | cons v rest ih => simp [emaFrom, ih]

lemma ema_length (series : List ℚ) (period : ℕ) :
    (ema series period).length = series.length := by
  cases series with
  | nil => rfl
  | cons v rest => simp [ema, emaFrom_length]

lemma emaFrom_getD (k : ℚ) (l : List ℚ) (prev : ℚ) (j : ℕ) (hj : j < l.length) :
    (emaFrom k prev l).getD j 0 =
      l.getD j 0 * k + ((prev :: emaFrom k prev l).getD j 0) * (1 - k) := by
  induction l generalizing prev j with
  | nil => simp at hj
  | cons v rest ih =>
    cases j with
    | zero => simp [emaFrom]
    | succ j' =>
      simp only [emaFrom, List.getD_cons_succ]
      exact ih (v * k + prev * (1 - k)) j' (by simpa using hj)

/-- C6: for a non-empty series the internal EMA helper returns a list of
the same length whose first element is the first input, and whose entry
at each later position `i` is `input[i] * k + output[i-1] * (1 - k)`
with `k = 2 / (period + 1)`; a single-element series is returned
unchanged. -/
theorem ema_spec (series : List ℚ) (period : ℕ) (hne : series ≠ []) :
    (ema series period).length = series.length ∧
    (ema series period).getD 0 0 = series.getD 0 0 ∧
    (∀ i, 0 < i → i < series.length →
      (ema series period).getD i 0 =
        series.getD i 0 * (2 / ((period : ℚ) + 1)) +
          (ema series period).getD (i - 1) 0 *
            (1 - 2 / ((period : ℚ) + 1))) ∧
    ∀ x : ℚ, ema [x] period = [x] := by
  cases series with
  | nil => exact absurd rfl hne
  | cons v rest =>
    refine ⟨ema_length _ _, by simp [ema], ?_, ?_⟩
    · intro i hi hlen
      obtain ⟨j, rfl⟩ : ∃ j, i = j + 1 := ⟨i - 1, by omega⟩
      have hj : j < rest.length := by
        simpa [List.length_cons] using hlen
      simp only [ema, List.getD_cons_succ, Nat.add_sub_cancel]
      exact emaFrom_getD (2 / ((period : ℚ) + 1)) rest v j hj
    · intro x
      simp [ema, emaFrom]

/-- Witness for C6: the EMA of the two-element series `[1, 3]` with
period 1 (so `k = 1`) has length 2, seeds with 1, satisfies the
recurrence at position 1, and the helper fixes singletons. -/
theorem ema_spec_witness :
    (ema [(1 : ℚ), 3] 1).length = ([(1 : ℚ), 3]).length ∧
    (ema [(1 : ℚ), 3] 1).getD 0 0 = ([(1 : ℚ), 3]).getD 0 0 ∧
    (∀ i, 0 < i → i < ([(1 : ℚ), 3]).length →
      (ema [(1 : ℚ), 3] 1).getD i 0 =
        ([(1 : ℚ), 3]).getD i 0 * (2 / ((1 : ℚ) + 1)) +
          (ema [(1 : ℚ), 3] 1).getD (i - 1) 0 * (1 - 2 / ((1 : ℚ) + 1))) ∧
    ∀ x : ℚ, ema [x] 1 = [x] :=
  ema_spec [(1 : ℚ), 3] 1 (by decide)

/-! ### C5: MACD definedness and constant series -/

lemma emaFrom_replicate (k c : ℚ) (n : ℕ) :
    emaFrom k c (List.replicate n c) = List.replicate n c := by
  induction n with
  | zero => rfl
  | succ m ih =>
    simp only [List.replicate_succ, emaFrom]
    have hc : c * k + c * (1 - k) = c := by ring
    rw [hc, ih]

lemma ema_replicate (n : ℕ) (c : ℚ) (period : ℕ) :
    ema (List.replicate n c) period = List.replicate n c := by
  cases n with
  | zero => rfl
  | succ m =>
    simp only [List.replicate_succ, ema]
    rw [emaFrom_replicate]

lemma getLast?_replicate_pos (n : ℕ) (c : ℚ) (hn : 0 < n) :
    (List.replicate n c).getLast? = some c := by
  induction n with
  | zero => exact absurd hn (by omega)
  | succ m ih =>
    cases m with
    | zero => rfl
    | succ m' =>
      have hexp : List.replicate (m' + 1 + 1) c = c :: c :: List.replicate m' c := by
        simp [List.replicate_succ]
      rw [hexp, List.getLast?_cons_cons, ← List.replicate_succ]
      exact ih (by omega)

/-- C5: `calculate_macd(prices, 12, 26, 9)` returns absent values
exactly when `len(prices) < 35 = slow + signal`, and on every constant
price series of length at least 35 both the MACD line and the signal
line are exactly 0. -/
theorem calculate_macd_spec (prices : List ℚ) :
    ((calculate_macd prices 12 26 9).1 = none ↔ prices.length < 35) ∧
    ((calculate_macd prices 12 26 9).2 = none ↔ prices.length < 35) ∧
    ∀ (c : ℚ) (n : ℕ), 35 ≤ n →
      calculate_macd (List.replicate n c) 12 26 9 = (some 0, some 0) := by
  have habs : ∀ l : List ℚ,
      ((calculate_macd l 12 26 9).1 = none ↔ l.length < 35) ∧
      ((calculate_macd l 12 26 9).2 = none ↔ l.length < 35) := by
    intro l
    by_cases h : l.length < 35
    · have h' : l.length < 26 + 9 := by omega
      simp [calculate_macd, h', h]
    · have h' : ¬ l.length < 26 + 9 := by omega
      have hml : (List.zipWith (fun f s => f - s)
          ((ema l 12).drop ((ema l 12).length - (ema l 26).length))
          (ema l 26)).length = l.length := by
        simp [List.length_zipWith, List.length_drop, ema_length]
      have hne : List.zipWith (fun f s => f - s)
          ((ema l 12).drop ((ema l 12).length - (ema l 26).length))
          (ema l 26) ≠ [] := by
        rw [← List.length_pos, hml]
        omega
      have hne2 : ema (List.zipWith (fun f s => f - s)
          ((ema l 12).drop ((ema l 12).length - (ema l 26).length))
          (ema l 26)) 9 ≠ [] := by
        rw [← List.length_pos, ema_length, hml]
        omega
      simp only [calculate_macd, if_neg h']
      constructor
      · simp only [List.getLast?_eq_none_iff]
        constructor
        · intro hc
          exact absurd hc hne
        · intro hc
          omega
      · simp only [List.getLast?_eq_none_iff]
        constructor
        · intro hc
          exact absurd hc hne2
        · intro hc
          omega
  refine ⟨(habs prices).1, (habs prices).2, ?_⟩
  intro c n hn
  have h' : ¬ n < 26 + 9 := by omega
  simp only [calculate_macd, List.length_replicate, if_neg h', ema_replicate,
    Nat.sub_self, List.drop_zero, List.zipWith_replicate', sub_self]
  rw [getLast?_replicate_pos n 0 (by omega)]

/-- Witness for C5: a constant series of exactly 35 entries yields
`(some 0, some 0)`, and the absent-iff characterization holds on it. -/
theorem calculate_macd_spec_witness :
    ((calculate_macd (List.replicate 35 (7 : ℚ)) 12 26 9).1 = none ↔
      (List.replicate 35 (7 : ℚ)).length < 35) ∧
    calculate_macd (List.replicate 35 (7 : ℚ)) 12 26 9 = (some 0, some 0) :=
  ⟨(calculate_macd_spec (List.replicate 35 (7 : ℚ))).1,
    (calculate_macd_spec (List.replicate 35 (7 : ℚ))).2.2 7 35 (by decide)⟩

/-! ### C1: the 35 linearly rising prices -/

/-- C1 counterexample: for the 35 prices 100..134 the claimed value
115.5 (= 231/2) for `moving_average(prices, 20)` is wrong, so the
claimed conjunction is false: the last 20 prices are 115..134, whose
mean is 124.5. -/
theorem linPrices_claim_counterexample :
    ¬ (moving_average linPrices 20 = some (231 / 2) ∧
        calculate_rsi linPrices 14 = some 100) := by
  intro hc
  obtain ⟨h1, -⟩ := hc
  have h : moving_average linPrices 20 = some (249 / 2) := by
    norm_num [moving_average, linPrices, List.range_succ]
  rw [h] at h1
  norm_num at h1

/-- C1 (amended): for the sequence of 35 prices rising linearly from
100 to 134 in integer steps, `moving_average(prices, 20)` returns 124.5
(the arithmetic mean of the last 20 prices 115..134) and
`calculate_rsi(prices, 14)` returns 100.0. -/
theorem linPrices_indicators :
    moving_average linPrices 20 = some (249 / 2) ∧
    calculate_rsi linPrices 14 = some 100 := by
  constructor
  · norm_num [moving_average, linPrices, List.range_succ]
  · norm_num [calculate_rsi, rsiDeltas, rsiStep, linPrices, List.range_succ]
